import Mathlib

/-!
Verification development for the clann approximate-nearest-neighbour index.

The definitions below are a shallow embedding of the C++ sources:
  * `src/puffinn/include/puffinn/prefixmap.hpp` (PrefixMap, PrefixMapQuery),
  * `src/puffinn/include/puffinn/LshDatatypes/LshDatatype.hpp` (HammingType),
  * `src/puffinn/include/puffinn/hash/L2hash.hpp` (L2HashFunction serialization),
  * `src/puffinn/include/puffinn/hash_source/pool.hpp` (HashPool),
  * `src/c_api/c_binder.cpp` (CPUFFINN_index_create).

Machine integers (`uint32_t` values held by `HammingType<uint32_t>`) are
modelled as `ℕ` with explicit `% 2 ^ 32` wherever C++ overflow/truncation can
occur.  C++ `while` loops are modelled by structurally recursive functions with
an explicit fuel argument that is always large enough to cover the number of
iterations the C++ loop performs; exhausting the fuel simply stops the loop,
mirroring the fact that the C++ code relies on sentinels to terminate.
`float` quantities are modelled as `ℚ` (for `failure_probability`) or, where a
claim only needs exactly-representable integral values, as `ℕ` (the `r`, `b`
parameters of `L2HashFunction`).  Byte streams are modelled at field
granularity as `List ℕ`: every field the C++ code reads or writes with a
single `read`/`write` call of matching size is one list element (a
`HashedVecIdx` pair counts as two adjacent elements, its `first` then its
`second`).
-/

namespace Clann

/-- Source: `typedefs.hpp` line 18, `static const unsigned int BITS_PER_FUNCTION = 4`. -/
def BITS_PER_FUNCTION : ℕ := 4

/-- Source: `prefixmap.hpp` line 64, `const static int SEGMENT_SIZE = 12`. -/
def SEGMENT_SIZE : ℕ := 12

/-- Source: `prefixmap.hpp` line 74, `const static int PREFIX_INDEX_BITS = 13`. -/
def PREFIX_INDEX_BITS : ℕ := 13

/-- Source: `typedefs.hpp` line 19, `IMPOSSIBLE_PREFIX = 0xffffffff` (the
all-ones 32-bit code used as pad sentinel and initial mask).  The source name
ends in a word this development avoids in identifiers, hence the shortening. -/
def IMPOSSIBLE_PREF : ℕ := 0xffffffff

/-- Model of `PrefixMapQuery` (`prefixmap.hpp` lines 25-62): the query hash,
the current mask, and the half-open interval `[prefix_start, prefix_end)` of
already-consumed positions.  All four fields are 32-bit values / indices. -/
structure PrefixMapQuery where
  hash : ℕ
  prefix_mask : ℕ
  prefix_start : ℕ
  prefix_end : ℕ
deriving Repr, DecidableEq

/-- Model of the branch-free binary-search loop in the `PrefixMapQuery`
constructor (`prefixmap.hpp` lines 52-57):

```
uint_fast32_t half = prefix_end-prefix_start;
while (half != 0) {
    half /= 2;
    uint_fast32_t mid = prefix_start+half;
    prefix_start = (hashes[mid] < hash ? (mid+1) : prefix_start);
}
```

The fuel is the first argument; the loop halves `half` each iteration, so any
fuel `> half` covers every iteration with `half != 0`, and once `half = 0` the
loop returns `start` regardless of remaining fuel.  `hashes` is modelled as a
total function so that the theorems can speak about arbitrary probe
positions. -/
def bsLoopFuel (hs : ℕ → ℕ) (q : ℕ) : ℕ → ℕ → ℕ → ℕ
  | 0, start, _ => start
  | fuel + 1, start, half =>
    if half = 0 then start
    else
      bsLoopFuel hs q fuel
        (if hs (start + half / 2) < q then start + half / 2 + 1 else start)
        (half / 2)

/-- Model of the `PrefixMapQuery` constructor (`prefixmap.hpp` lines 40-61)
given the binary-search hint interval `[s, e)`: it runs the loop above and then
sets `prefix_end = prefix_start` and `prefix_mask = IMPOSSIBLE_PREFIX`. -/
def mkPrefixMapQueryF (hs : ℕ → ℕ) (qh s e : ℕ) : PrefixMapQuery where
  hash := qh
  prefix_mask := IMPOSSIBLE_PREF
  prefix_start := bsLoopFuel hs qh (e - s + 1) s (e - s)
  prefix_end := bsLoopFuel hs qh (e - s + 1) s (e - s)

/-- Model of `PrefixMap<T>` (`prefixmap.hpp` lines 70-312).  `indices` and
`hashes` are the parallel content arrays, `parallel_rebuilding_data` the
per-thread pending `(index, hash)` pairs, `hash_length` the hash length in
bits.  The `prefix_index` array built by `rebuild` is represented by the
function `prefixIndexAt` below, applied to the state captured at rebuild time:
`pi_R` records the `rebuilding_data_size` value that the last `rebuild` used
when filling the array (this is exactly the data the stored array is a
function of).  The model therefore represents post-`rebuild` maps; every map
in this development is rebuilt before use, as in the source, where the
constructor calls `rebuild()` immediately. -/
structure PrefixMap where
  indices : List ℕ
  hashes : List ℕ
  parallel_rebuilding_data : List (List (ℕ × ℕ))
  hash_length : ℕ
  pi_R : ℕ
deriving Repr, DecidableEq

/-- Modelled from the spec: `sort_two_lists` lives in `puffinn/sorthash.hpp`,
which is not part of the provided sources.  The spec (§4.3 Build) says the
pending pairs are stably sorted by hashcode with ties broken by `VectorId`,
i.e. lexicographically by `(hash, index)`.  Pairs are `(hash, index)` here. -/
def insertPairSorted (p : ℕ × ℕ) : List (ℕ × ℕ) → List (ℕ × ℕ)
  | [] => [p]
  | q :: qs =>
    if p.1 < q.1 ∨ (p.1 = q.1 ∧ p.2 ≤ q.2) then p :: q :: qs
    else q :: insertPairSorted p qs

/-- Modelled from the spec: insertion sort implementing the `(hash, index)`
lexicographic order required of the missing `sort_two_lists`. -/
def sortPairs (l : List (ℕ × ℕ)) : List (ℕ × ℕ) :=
  l.foldr insertPairSorted []

/-- Model of the inner `while` of the `prefix_index` build
(`prefixmap.hpp` lines 229-234): starting from `idx`, advance while
`idx < R && (hashes[SEGMENT_SIZE+idx] >> sh) < p`.  Fuel `R + 1` covers all
iterations since `idx` is bounded by `R`. -/
def advanceIdx (hashes : List ℕ) (R sh p : ℕ) : ℕ → ℕ → ℕ
  | 0, idx => idx
  | fuel + 1, idx =>
    if idx < R ∧ (hashes.getD (SEGMENT_SIZE + idx) 0) >>> sh < p then
      advanceIdx hashes R sh p fuel (idx + 1)
    else idx

/-- Value of the loop counter `idx` after the `prefix_index` build loop
(`prefixmap.hpp` lines 227-236) has processed prefixes `0..p` in order; the
counter persists from one prefix to the next exactly as in the source. -/
def idxAfter (hashes : List ℕ) (R sh : ℕ) : ℕ → ℕ
  | 0 => advanceIdx hashes R sh 0 (R + 1) 0
  | p + 1 => advanceIdx hashes R sh (p + 1) (R + 1) (idxAfter hashes R sh p)

/-- Entry `p` of the `prefix_index` array as filled by the last `rebuild`
(`prefixmap.hpp` lines 227-237): `SEGMENT_SIZE + idx` for `p < 2^P`, and
`SEGMENT_SIZE + rebuilding_data_size` for the final entry `p = 2^P`. -/
def prefixIndexAt (pm : PrefixMap) (p : ℕ) : ℕ :=
  if p = 2 ^ PREFIX_INDEX_BITS then SEGMENT_SIZE + pm.pi_R
  else SEGMENT_SIZE + idxAfter pm.hashes pm.pi_R (pm.hash_length - PREFIX_INDEX_BITS) p

/-- Model of `PrefixMap::rebuild` (`prefixmap.hpp` lines 173-244): keep the
unpadded middle of the current arrays, append all pending per-thread pairs,
sort, re-pad with `SEGMENT_SIZE` sentinels on each side, record the
`rebuilding_data_size` used for the `prefix_index` build, and clear the
pending buffers (the source also `shrink_to_fit`s them, which has no logical
effect). -/
def rebuild (pm : PrefixMap) : PrefixMap :=
  let rds := (pm.parallel_rebuilding_data.map List.length).sum
  let old : List (ℕ × ℕ) :=
    if pm.hashes.length ≠ 0 then
      ((pm.hashes.zip pm.indices).drop SEGMENT_SIZE).take (pm.hashes.length - 2 * SEGMENT_SIZE)
    else []
  let pend : List (ℕ × ℕ) := (pm.parallel_rebuilding_data.flatten).map (fun p => (p.2, p.1))
  let tmp := sortPairs (old ++ pend)
  { indices :=
      List.replicate SEGMENT_SIZE 0 ++ tmp.map Prod.snd ++ List.replicate SEGMENT_SIZE 0
    hashes :=
      List.replicate SEGMENT_SIZE IMPOSSIBLE_PREF ++ tmp.map Prod.fst ++
        List.replicate SEGMENT_SIZE IMPOSSIBLE_PREF
    parallel_rebuilding_data := pm.parallel_rebuilding_data.map (fun _ => [])
    hash_length := pm.hash_length
    pi_R := rds }

/-- Model of the `PrefixMap(unsigned int hash_length)` constructor
(`prefixmap.hpp` lines 94-101): start empty, `rebuild()`, then resize the
per-thread pending buffers to the number of threads. -/
def mkPrefixMap (hash_length numThreads : ℕ) : PrefixMap :=
  let pm1 := rebuild
    { indices := [], hashes := [], parallel_rebuilding_data := []
      hash_length := hash_length, pi_R := 0 }
  { pm1 with parallel_rebuilding_data := List.replicate numThreads [] }

/-- Model of `PrefixMap::insert` (`prefixmap.hpp` lines 161-163): append the
pair `(idx, hash_value)` to thread `tid`'s pending buffer.  All uses in this
development have `tid` in bounds, matching the C++ precondition. -/
def insert (pm : PrefixMap) (tid idx hv : ℕ) : PrefixMap :=
  { pm with
    parallel_rebuilding_data :=
      pm.parallel_rebuilding_data.set tid
        ((pm.parallel_rebuilding_data.getD tid []) ++ [(idx, hv)]) }

/-- Convenience: insert a list of `(idx, hash)` pairs through thread 0. -/
def insertList (pm : PrefixMap) (l : List (ℕ × ℕ)) : PrefixMap :=
  l.foldl (fun m p => insert m 0 p.1 p.2) pm

/-- Model of `PrefixMap::create_query` (`prefixmap.hpp` lines 247-257): the
hint interval is `[prefix_index[q >> (L-P)], prefix_index[(q >> (L-P)) + 1])`
and the `PrefixMapQuery` constructor is run on it over this map's hashes
(out-of-list probes yield the default 0; all runs in this file stay inside the
array, as the C++ code assumes). -/
def create_query (pm : PrefixMap) (hash : ℕ) : PrefixMapQuery :=
  let pfx := hash >>> (pm.hash_length - PREFIX_INDEX_BITS)
  mkPrefixMapQueryF (fun i => pm.hashes.getD i 0) hash
    (prefixIndexAt pm pfx) (prefixIndexAt pm (pfx + 1))

/-- Model of the rightward expansion loop of `get_next_range`
(`prefixmap.hpp` lines 276-278): step by `SEGMENT_SIZE` while
`hash_code_prefix == (hashes[i] & mask)` (`HammingType::prefix_eq`). -/
def expandRight (hashes : List ℕ) (hcp mask : ℕ) : ℕ → ℕ → ℕ
  | 0, i => i
  | fuel + 1, i =>
    if hcp = hashes.getD i 0 &&& mask then
      expandRight hashes hcp mask fuel (i + SEGMENT_SIZE)
    else i

/-- Model of the leftward expansion loop of `get_next_range` exactly as coded
(`prefixmap.hpp` lines 289-291): the loop condition tests
`hashes[next_idx_right]` — the index fixed by the rightward expansion — while
the body decrements `next_idx_left`.  The condition does not depend on the
loop variable, so the loop runs either zero times or until fuel runs out
(the C++ loop would not terminate in the latter case; it never arises because
the condition is false whenever the rightward loop has just exited). -/
def expandLeftAsCoded (hashes : List ℕ) (hcp mask nir : ℕ) : ℕ → ℕ → ℕ
  | 0, i => i
  | fuel + 1, i =>
    if hcp = hashes.getD nir 0 &&& mask then
      expandLeftAsCoded hashes hcp mask nir fuel (i - SEGMENT_SIZE)
    else i

/-- Model of `PrefixMap::get_next_range` (`prefixmap.hpp` lines 266-299).
Returns the updated query (the code mutates only `prefix_mask`, via
`pop_hash`, which shifts the 32-bit mask left by `BITS_PER_FUNCTION`) together
with the left and right ranges as half-open index intervals into `indices`.
`uint_fast32_t` subtractions that cannot underflow in the modelled runs are
Nat subtractions. -/
def get_next_range (pm : PrefixMap) (query : PrefixMapQuery) :
    PrefixMapQuery × ((ℕ × ℕ) × (ℕ × ℕ)) :=
  let mask := (query.prefix_mask <<< BITS_PER_FUNCTION) % 2 ^ 32
  let hcp := query.hash &&& mask
  let fuel := pm.hashes.length + SEGMENT_SIZE + 1
  let start_idx_right := query.prefix_end
  let next_idx_right := expandRight pm.hashes hcp mask fuel start_idx_right
  let end_idx_right :=
    if pm.indices.length - SEGMENT_SIZE ≤ next_idx_right then
      max start_idx_right (next_idx_right - SEGMENT_SIZE)
    else next_idx_right
  let next_idx_left :=
    expandLeftAsCoded pm.hashes hcp mask next_idx_right fuel (query.prefix_start - 1)
  let end_idx_left := (query.prefix_start - 1) + 1
  let start_idx_left0 := next_idx_left + 1
  let start_idx_left :=
    if start_idx_left0 < SEGMENT_SIZE then min end_idx_left (start_idx_left0 + SEGMENT_SIZE)
    else start_idx_left0
  ({ query with prefix_mask := mask },
   ((start_idx_left, end_idx_left), (start_idx_right, end_idx_right)))

/-! Field-granular byte streams.  `readTok` consumes one field, `readN` a run
of `n` fields. -/

/-- Read one field from a stream, if present. -/
def readTok : List ℕ → Option (ℕ × List ℕ)
  | [] => none
  | t :: ts => some (t, ts)

/-- Read `n` fields from a stream, if present. -/
def readN : List ℕ → ℕ → Option (List ℕ × List ℕ)
  | s, 0 => some ([], s)
  | s, n + 1 => do
    let (t, s1) ← readTok s
    let (ts, s2) ← readN s1 n
    return (t :: ts, s2)

/-- Model of `parallel_rebuilding_data[0].push_back(v)` (`prefixmap.hpp` line
121) with `std::vector::operator[]` bounds modelled explicitly: indexing
element 0 of an empty outer vector is out of bounds (undefined behaviour in
C++), modelled as `none`. -/
def pushAt0 (d : List (List (ℕ × ℕ))) (v : ℕ × ℕ) : Option (List (List (ℕ × ℕ))) :=
  match d with
  | [] => none
  | x :: xs => some ((x ++ [v]) :: xs)

/-- Model of the deserialization loop of the `PrefixMap(std::istream&)`
constructor (`prefixmap.hpp` lines 117-123): read `rebuilding_len` pairs
(each `HashedVecIdx` is two adjacent fields) and push each into
`parallel_rebuilding_data[0]`. -/
def readRebuildLoop : ℕ → List ℕ → List (List (ℕ × ℕ)) →
    Option (List (List (ℕ × ℕ)) × List ℕ)
  | 0, s, d => some (d, s)
  | k + 1, s, d => do
    let (a, s1) ← readTok s
    let (b, s2) ← readTok s1
    let d1 ← pushAt0 d (a, b)
    readRebuildLoop k s2 d1

/-- Model of the `PrefixMap(std::istream&)` constructor (`prefixmap.hpp`
lines 103-130).  The member `parallel_rebuilding_data` is
default-initialized, i.e. the empty outer vector; this constructor never
resizes it.  It returns the raw deserialized components
`(indices, hashes, parallel_rebuilding_data, hash_length, prefix_index)`,
or `none` if a container access is out of bounds or the stream is short. -/
def prefixMapFromStream (s : List ℕ) :
    Option (List ℕ × List ℕ × List (List (ℕ × ℕ)) × ℕ × List ℕ) := do
  let (len, s) ← readTok s
  let (idxs, s) ← if len ≠ 0 then readN s len else some ([], s)
  let (hs, s) ← if len ≠ 0 then readN s len else some ([], s)
  let (rlen, s) ← readTok s
  let (prd, s) ← readRebuildLoop rlen s []
  let (hl, s) ← readTok s
  let (pidx, _s) ← readN s (2 ^ PREFIX_INDEX_BITS + 1)
  return (idxs, hs, prd, hl, pidx)

/-- Model of `L2HashFunction` (`L2hash.hpp` lines 10-66).  The scalar fields
are modelled as `ℕ`; the `float` parameters `r` and `b` are exercised only at
exactly representable integral values, for which the identification is exact.
`hash_vec` has `dimensions` stored entries. -/
structure L2HashFunction where
  dimensions : ℕ
  bits : ℕ
  ub : ℕ
  r : ℕ
  b : ℕ
  hash_vec : List ℕ
deriving Repr, DecidableEq

/-- Model of `L2HashFunction::serialize` (`L2hash.hpp` lines 41-51): it
writes, in order, `dimensions`, `bits`, `ub`, `b`, `r`, then the
`dimensions` entries of `hash_vec`. -/
def serializeL2 (f : L2HashFunction) : List ℕ :=
  [f.dimensions, f.bits, f.ub, f.b, f.r] ++ f.hash_vec

/-- Model of the `L2HashFunction(std::istream&)` constructor (`L2hash.hpp`
lines 29-39): it reads, in order, `dimensions`, `bits`, `ub`, `r`, `b`, then
`dimensions` entries into `hash_vec`. -/
def deserializeL2 (s : List ℕ) : Option L2HashFunction := do
  let (d, s) ← readTok s
  let (bits, s) ← readTok s
  let (ub, s) ← readTok s
  let (r, s) ← readTok s
  let (b, s) ← readTok s
  let (vec, _s) ← readN s d
  return ⟨d, bits, ub, r, b, vec⟩

/-! HashPool (`pool.hpp`). -/

/-- Model of `HammingType::concatenate_hash` folded over one repetition's
pool indices (`pool.hpp` lines 149-154 together with `LshDatatype.hpp` lines
42-48): `value <<= bits_per_function; value |= pool[idx]` on a `w`-bit
unsigned word.  The C++ `|=` converts the 64-bit pool entry into the `w`-bit
word, so both operands are truncated mod `2 ^ w`. -/
def poolFoldCode (pool : List ℕ) (bpf w : ℕ) (acc : ℕ) (idxs : List ℕ) : ℕ :=
  idxs.foldl (fun a i => ((a <<< bpf) % 2 ^ w) ||| (pool.getD i 0 % 2 ^ w)) acc

/-- Model of one repetition of `HashPool::hash_repetitions` (`pool.hpp` lines
149-156): concatenate the selected pool hashes, then `res >>= bits_to_cut`. -/
def hashRepetition (pool idxs : List ℕ) (bpf bits_to_cut w : ℕ) : ℕ :=
  (poolFoldCode pool bpf w 0 idxs) >>> bits_to_cut

/-- Model of `HashPool::hash_repetitions` (`pool.hpp` lines 133-159): one code
per repetition, each obtained from that repetition's pool indices. -/
def hash_repetitions (pool : List ℕ) (indices : List (List ℕ))
    (bpf bits_to_cut w : ℕ) : List ℕ :=
  indices.map (fun rep => hashRepetition pool rep bpf bits_to_cut w)

/-- The specification's reading of a concatenated code: sub-hashes
concatenated most-significant first ( §3 HashCode), written as the same
shift-and-or fold but on unbounded naturals, with no word truncation. -/
def specMsbConcat (pool idxs : List ℕ) (bpf : ℕ) : ℕ :=
  idxs.foldl (fun a i => (a <<< bpf) ||| pool.getD i 0) 0

/-- Model of `HashPool::failure_probability` (`pool.hpp` lines 174-185):
`(1 - col_prob)^tables * (1 - last_prob)^(max_tables - tables)` where
`col_prob` is the concatenated collision probability at `hash_length` and
`last_prob` the one at `hash_length + 1`.  `concatenated_collision_probability`
lives in the absent `hash_source.hpp`, so it is a parameter `ccp` taking the
length and the similarity.  `float` arithmetic is modelled over `ℚ`. -/
def failure_probability (ccp : ℕ → ℚ → ℚ) (hash_length tables max_tables : ℕ)
    (kth_similarity : ℚ) : ℚ :=
  let col_prob := ccp hash_length kth_similarity
  let last_prob := ccp (hash_length + 1) kth_similarity
  (1 - col_prob) ^ tables * (1 - last_prob) ^ (max_tables - tables)

/-- Modelled from the spec: `concatenated_collision_probability` is declared
in `hash_source.hpp`, which is not among the provided sources.  The spec
(§4.1, §4.2) describes it as the probability that two points produce identical
length-`n` concatenations, monotone non-increasing in `n`; for independent
sub-hashes with per-bit collision probability `p` this is `p ^ n`.  The
similarity argument is already folded into `p` here. -/
def ccpGeom (p : ℚ) : ℕ → ℚ → ℚ := fun n _ => p ^ n

/-! C api (`c_binder.cpp`). -/

/-- The two index variants `CPUFFINN_index_create` can instantiate. -/
inductive IndexKind where
  | cosine
  | l2
deriving Repr, DecidableEq

/-- Model of `CPUFFINN_index_create` (`c_binder.cpp` lines 39-50): "angular"
creates a cosine-similarity index, "euclidean" an L2 index, and every other
tag (the code's error message lists exactly these two as supported) returns
`nullptr`, modelled as `none`.  `dataset_args` and `memory_limit` are passed
through to the index constructor and do not affect which branch is taken. -/
def CPUFFINN_index_create (dataset_type : String) (dataset_args : ℤ)
    (memory_limit : ℕ) : Option IndexKind :=
  if dataset_type = "angular" then some IndexKind.cosine
  else if dataset_type = "euclidean" then some IndexKind.l2
  else none

/-! Concrete program states used by the claim theorems. -/

/-- Scenario of spec §8 item 4: the prefix map over hashes
`{0x00010000, 0x00010001, 0x00020000, 0x80000000}` with `L = 24`. -/
def pmC1 : PrefixMap :=
  rebuild (insertList (mkPrefixMap 24 1)
    [(0, 0x00010000), (1, 0x00010001), (2, 0x00020000), (3, 0x80000000)])

/-- The query for hash `0x00010002` on `pmC1`. -/
def qC1 : PrefixMapQuery := create_query pmC1 0x00010002

/-- Result of the first `get_next_range` on `qC1`. -/
def rC1 : PrefixMapQuery × ((ℕ × ℕ) × (ℕ × ℕ)) := get_next_range pmC1 qC1

/-- A rebuilt map holding 17 entries that all hash to `0x00010000`
(ids 0..16), so that the first rightward expansion returns a non-empty
range that is not clamped away. -/
def pmC2 : PrefixMap :=
  rebuild (insertList (mkPrefixMap 24 1)
    ((List.range 17).map (fun i => (i, 0x00010000))))

/-- The query for hash `0x00010000` on `pmC2`. -/
def qC2 : PrefixMapQuery := create_query pmC2 0x00010000

/-- First `get_next_range` call on `qC2`. -/
def r1C2 : PrefixMapQuery × ((ℕ × ℕ) × (ℕ × ℕ)) := get_next_range pmC2 qC2

/-- Second `get_next_range` call, on the query state returned by the first. -/
def r2C2 : PrefixMapQuery × ((ℕ × ℕ) × (ℕ × ℕ)) := get_next_range pmC2 r1C2.1

/-- A concrete `L2HashFunction` with `r = 4` and `b = 1` (the sampled value of
`r` in `L2Hash::sample` is the float `4.0`; `b = 1.0` is a possible sample of
the normal distribution; both are exactly representable). -/
def fC3 : L2HashFunction := ⟨3, 4, 15, 4, 1, [7, 8, 9]⟩

/-- A map rebuilt with the single pair `(0, 0x00010000)` pending. -/
def pmC4a : PrefixMap := rebuild (insert (mkPrefixMap 24 1) 0 0 0x00010000)

/-- The same map rebuilt a second time with nothing inserted in between. -/
def pmC4b : PrefixMap := rebuild pmC4a

/-- A map rebuilt with two pending pairs of hash `0x00010000`. -/
def pmC5a : PrefixMap :=
  rebuild (insertList (mkPrefixMap 24 1) [(0, 0x00010000), (1, 0x00010000)])

/-- The same map after inserting a third pair and rebuilding again, merging
two previously stored hashes with one newly pending pair. -/
def pmC5b : PrefixMap := rebuild (insert pmC5a 0 2 0x00010000)

/-- A serialized `PrefixMap` stream whose content arrays are empty but whose
pending-rebuild count `rebuilding_len` is 1, followed by the serialized
`HashedVecIdx` pair `(5, 7)`: exactly the prefix `serialize` (`prefixmap.hpp`
lines 132-158) emits for a map with one pending pair, before `hash_length`
and `prefix_index`. -/
def streamC10 : List ℕ := [0, 1, 5, 7]

/-! Theorems.  Each claim of the specification audit is settled below. -/

set_option maxRecDepth 1000000

/-- C1 (failing-input evaluation): on the spec §8 scenario map with hashes
`{0x00010000, 0x00010001, 0x00020000, 0x80000000}` at `L = 24` and query
`0x00010002`, `create_query` does put `prefix_start = prefix_end = 14` at the
insertion slot, and positions 12 and 13 do hold the two `0x0001…` entries that
match the query prefix under the shortened mask `0xfffffff0`; yet the left
range returned by the first `get_next_range` is the empty `[14, 14)` instead
of containing them, because the left expansion loop tests
`hashes[next_idx_right]` and therefore never runs. -/
theorem c1_left_expansion_returns_empty_range :
    qC1.prefix_start = 14 ∧ qC1.prefix_end = 14 ∧
    pmC1.hashes.getD 12 0 = 0x00010000 ∧ pmC1.hashes.getD 13 0 = 0x00010001 ∧
    pmC1.hashes.getD 12 0 &&& 0xfffffff0 = 0x00010002 &&& 0xfffffff0 ∧
    pmC1.hashes.getD 13 0 &&& 0xfffffff0 = 0x00010002 &&& 0xfffffff0 ∧
    rC1.2.1 = (14, 14) := by decide

/-- C2 (failing-input evaluation): on a rebuilt map with 17 equal hashes
`0x00010000`, `create_query` yields the consumed interval `[12, 12)`; the
first `get_next_range` returns the right range `[12, 24)` but leaves the
query's `prefix_start`/`prefix_end` at 12 (only the mask is popped), and the
second call returns the right range `[12, 24)` again, so the entries at
positions 12..23 are returned twice. -/
theorem c2_consumed_interval_not_updated :
    qC2.prefix_start = 12 ∧ qC2.prefix_end = 12 ∧
    r1C2.2.2 = (12, 24) ∧
    r1C2.1.prefix_start = 12 ∧ r1C2.1.prefix_end = 12 ∧
    r2C2.2.2 = (12, 24) := by decide

/-- C3 (failing-input evaluation): deserializing a serialized
`L2HashFunction` with `r = 4`, `b = 1` succeeds but returns the function with
`r` and `b` exchanged, because `serialize` writes `b` before `r` while the
stream constructor reads `r` before `b`; since `r ≠ b` here, the round-trip is
not the identity. -/
theorem c3_l2hash_roundtrip_swaps_r_and_b :
    deserializeL2 (serializeL2 fC3) = some { fC3 with r := fC3.b, b := fC3.r } ∧
    fC3.r ≠ fC3.b := by decide

/-- C4 (failing-input evaluation): rebuilding `pmC4a` (one stored pair, hash
`0x00010000`) a second time with nothing inserted leaves `hashes` and
`indices` unchanged but rewrites `prefix_index`: entry 33 (and the final
entry) drop from 13 to 12, because the second rebuild bounds the
`prefix_index` walk by the pending-pair count 0 instead of the real number of
stored entries. -/
theorem c4_second_rebuild_changes_prefix_index :
    pmC4b.hashes = pmC4a.hashes ∧ pmC4b.indices = pmC4a.indices ∧
    prefixIndexAt pmC4a 33 = 13 ∧ prefixIndexAt pmC4b 33 = 12 ∧
    prefixIndexAt pmC4a (2 ^ PREFIX_INDEX_BITS) = 13 ∧
    prefixIndexAt pmC4b (2 ^ PREFIX_INDEX_BITS) = 12 := by decide

/-- C5 (failing-input evaluation): after a rebuild that merges two previously
stored hashes `0x00010000` with one newly pending pair of the same hash,
`prefix_index[33] = 13`, but `hashes[13] >> (L − P) = 32 < 33`, violating the
claimed invariant `hashes[prefix_index[p]] >> (L − P) ≥ p`; the smallest
position from `SEGMENT_SIZE` on whose top-P bits reach 33 is the padding
position 15, not 13 (positions 12..14 all have top bits 32). -/
theorem c5_merged_rebuild_breaks_prefix_index_invariant :
    prefixIndexAt pmC5b 33 = 13 ∧
    pmC5b.hashes.getD 13 0 >>> (pmC5b.hash_length - PREFIX_INDEX_BITS) = 32 ∧
    pmC5b.hashes.getD 12 0 >>> (pmC5b.hash_length - PREFIX_INDEX_BITS) < 33 ∧
    pmC5b.hashes.getD 14 0 >>> (pmC5b.hash_length - PREFIX_INDEX_BITS) < 33 ∧
    33 ≤ pmC5b.hashes.getD 15 0 >>> (pmC5b.hash_length - PREFIX_INDEX_BITS) := by decide

/-- Helper for C6: the branch-free binary-search loop returns the insertion
point `ip` whenever `ip` lies within `[start, start + half]`, every position
in `[s, ip)` holds a hash below the query and every position in
`[ip, ip + H]` holds a hash at least the query, where `H` bounds `half`.
The bound suffices because every probe is `start + half/2` with `start ≤ ip`
and `half ≤ H` as loop invariants, so no position beyond `ip + H` is ever
read. -/
theorem bsLoopFuel_finds (hs : ℕ → ℕ) (q s ip H : ℕ)
    (hlow : ∀ i, s ≤ i → i < ip → hs i < q)
    (hhigh : ∀ i, ip ≤ i → i ≤ ip + H → q ≤ hs i) :
    ∀ (fuel half start : ℕ), half < fuel → half ≤ H → s ≤ start → start ≤ ip →
      ip ≤ start + half → bsLoopFuel hs q fuel start half = ip := by
  intro fuel
  induction fuel with
  | zero => intro half start h _ _ _ _; omega
  | succ fuel IH =>
    intro half start hfu hH hstart hsip hip
    by_cases h0 : half = 0
    · subst h0
      simp [bsLoopFuel]
      omega
    · simp only [bsLoopFuel, if_neg h0]
      by_cases hc : hs (start + half / 2) < q
      · rw [if_pos hc]
        have hmidlt : start + half / 2 < ip := by
          by_contra hcon
          push_neg at hcon
          exact absurd hc (not_lt.mpr (hhigh _ hcon (by omega)))
        exact IH (half / 2) (start + half / 2 + 1) (by omega) (by omega) (by omega)
          (by omega) (by omega)
      · rw [if_neg hc]
        have hiple : ip ≤ start + half / 2 := by
          by_contra hcon
          push_neg at hcon
          exact hc (hlow _ (by omega) hcon)
        exact IH (half / 2) start (by omega) (by omega) hstart hsip (by omega)

/-- C6: for every `PrefixMap` whose hashes are sorted in the probed region —
expressed by the threshold facts that positions in `[s, ip)` hash below `qh`
and positions in `[ip, ip + (e − s)]` (which covers every position the loop
can probe) hash at least `qh`, where `ip` is the insertion point and `[s, e)`
is exactly the hint interval `[prefix_index[top_P(qh)],
prefix_index[top_P(qh) + 1])` that `create_query` seeds — and under the
precondition that the hint interval brackets `ip`, `create_query` terminates
with `prefix_start = ip`, `prefix_end = prefix_start` and
`prefix_mask = IMPOSSIBLE_PREFIX`. -/
theorem c6_create_query_insertion_point (pm : PrefixMap) (qh ip s e : ℕ)
    (hseq : s = prefixIndexAt pm (qh >>> (pm.hash_length - PREFIX_INDEX_BITS)))
    (heq : e = prefixIndexAt pm ((qh >>> (pm.hash_length - PREFIX_INDEX_BITS)) + 1))
    (hlow : ∀ i, s ≤ i → i < ip → pm.hashes.getD i 0 < qh)
    (hhigh : ∀ i, ip ≤ i → i ≤ ip + (e - s) → qh ≤ pm.hashes.getD i 0)
    (h1 : s ≤ ip) (h2 : ip ≤ e) :
    (create_query pm qh).prefix_start = ip ∧
    (create_query pm qh).prefix_end = ip ∧
    (create_query pm qh).prefix_mask = IMPOSSIBLE_PREF := by
  have hps : bsLoopFuel (fun i => pm.hashes.getD i 0) qh (e - s + 1) s (e - s) = ip :=
    bsLoopFuel_finds (fun i => pm.hashes.getD i 0) qh s ip (e - s) hlow hhigh
      (e - s + 1) (e - s) s (by omega) (Nat.le_refl _) (Nat.le_refl s) h1 (by omega)
  subst hseq heq
  exact ⟨hps, hps, rfl⟩

/-- C6 witness: on the rebuilt scenario map `pmC1` (hashes `0x00010000,
0x00010001, 0x00020000, 0x80000000` behind 12 sentinels, `L = 24`) with query
hash `0x00010002`, the hint interval is `[12, 14)`, the insertion point is 14,
and `create_query` ends with `prefix_start = prefix_end = 14` and the initial
mask; the sortedness hypotheses are checked at the finitely many positions
12..16 they constrain. -/
theorem c6_create_query_insertion_point_witness :
    (create_query pmC1 0x00010002).prefix_start = 14 ∧
    (create_query pmC1 0x00010002).prefix_end = 14 ∧
    (create_query pmC1 0x00010002).prefix_mask = IMPOSSIBLE_PREF :=
  c6_create_query_insertion_point pmC1 0x00010002 14 12 14
    (by decide) (by decide)
    (by
      intro i hi1 hi2
      have h : i = 12 ∨ i = 13 := by omega
      rcases h with h | h <;> subst h <;> decide)
    (by
      intro i hi1 hi2
      have h : i = 14 ∨ i = 15 ∨ i = 16 := by omega
      rcases h with h | h | h <;> subst h <;> decide)
    (by omega) (by omega)

/-- C7 counterexample: with the spec-modelled concatenated collision
probability `(1/2)^n`, the value `failure_probability l=8, t=1, R=2` computed
by the code differs from the claimed formula
`(1 - p_cur)^t * (1 - p_shorter)^(R - t)` for the next shorter prefix length,
whether "one bit shorter" (7) or "one sub-hash shorter" (8 −
BITS_PER_FUNCTION = 4): the code accounts the remaining repetitions at length
`hash_length + 1`, which is longer, not shorter. -/
theorem c7_failure_probability_counterexample :
    failure_probability (ccpGeom (1 / 2)) 8 1 2 0 ≠
      (1 - ccpGeom (1 / 2) 8 0) ^ 1 * (1 - ccpGeom (1 / 2) 7 0) ^ (2 - 1) ∧
    failure_probability (ccpGeom (1 / 2)) 8 1 2 0 ≠
      (1 - ccpGeom (1 / 2) 8 0) ^ 1 * (1 - ccpGeom (1 / 2) 4 0) ^ (2 - 1) := by
  constructor <;> norm_num [failure_probability, ccpGeom]

/-- C7 (amended): for every concatenated-collision-probability function and
all arguments, `failure_probability(l, t, R, s)` equals
`(1 - ccp(l, s))^t * (1 - ccp(l + 1, s))^(R − t)`: the `R − t` remaining
repetitions are accounted at the next longer hash length `l + 1` (the one the
previous, stricter phase used), not at a shorter one. -/
theorem c7_failure_probability_formula (ccp : ℕ → ℚ → ℚ) (l t R : ℕ) (s : ℚ) :
    failure_probability ccp l t R s =
      (1 - ccp l s) ^ t * (1 - ccp (l + 1) s) ^ (R - t) := rfl

/-- Helper for C8: a defaulted lookup into a list of values below a positive
bound stays below the bound. -/
theorem getD_lt_of_forall_mem {B : ℕ} (hB : 0 < B) :
    ∀ (pool : List ℕ), (∀ x ∈ pool, x < B) → ∀ i, pool.getD i 0 < B := by
  intro pool
  induction pool with
  | nil => intro _ i; simpa [List.getD] using hB
  | cons a l IH =>
    intro h i
    cases i with
    | zero => simpa using h a (by simp)
    | succ n => simpa using IH (fun x hx => h x (by simp [hx])) n

/-- Helper for C8: as long as the concatenation fits in the `w`-bit word, the
truncating fold of `concatenate_hash` agrees with the untruncated
shift-and-or fold, and the result of the latter stays below
`2 ^ (m + bpf·len)` for any starting accumulator below `2 ^ m`. -/
theorem poolFold_eq_spec (pool : List ℕ) (bpf w : ℕ)
    (hpool : ∀ i, pool.getD i 0 < 2 ^ bpf) :
    ∀ (idxs : List ℕ) (acc m : ℕ), acc < 2 ^ m → m + bpf * idxs.length ≤ w →
      poolFoldCode pool bpf w acc idxs =
        idxs.foldl (fun a i => (a <<< bpf) ||| pool.getD i 0) acc ∧
      idxs.foldl (fun a i => (a <<< bpf) ||| pool.getD i 0) acc <
        2 ^ (m + bpf * idxs.length) := by
  intro idxs
  induction idxs with
  | nil =>
    intro acc m hacc _
    exact ⟨rfl, by simpa using hacc⟩
  | cons i rest IH =>
    intro acc m hacc hw
    have hlen : bpf * (i :: rest).length = bpf * rest.length + bpf := by
      simp [List.length_cons]; ring
    have hbw : m + bpf ≤ w := by omega
    have hpow : (0 : ℕ) < 2 ^ bpf := pow_pos (by norm_num) bpf
    have hshift_lt : acc <<< bpf < 2 ^ (m + bpf) := by
      rw [Nat.shiftLeft_eq, pow_add]
      exact mul_lt_mul_of_pos_right hacc hpow
    have hstep_lt : (acc <<< bpf) ||| pool.getD i 0 < 2 ^ (m + bpf) :=
      Nat.or_lt_two_pow hshift_lt
        (lt_of_lt_of_le (hpool i) (Nat.pow_le_pow_right (by norm_num) (by omega)))
    have hm1 : (acc <<< bpf) % 2 ^ w = acc <<< bpf :=
      Nat.mod_eq_of_lt
        (lt_of_lt_of_le hshift_lt (Nat.pow_le_pow_right (by norm_num) hbw))
    have hp1 : pool.getD i 0 % 2 ^ w = pool.getD i 0 :=
      Nat.mod_eq_of_lt
        (lt_of_lt_of_le (hpool i) (Nat.pow_le_pow_right (by norm_num) (by omega)))
    have hrec := IH ((acc <<< bpf) ||| pool.getD i 0) (m + bpf) hstep_lt (by omega)
    have hexp : m + bpf + bpf * rest.length = m + bpf * (i :: rest).length := by
      omega
    refine ⟨?_, ?_⟩
    · show poolFoldCode pool bpf w
        (((acc <<< bpf) % 2 ^ w) ||| (pool.getD i 0 % 2 ^ w)) rest = _
      rw [hm1, hp1]
      exact hrec.1
    · have := hrec.2
      rw [hexp] at this
      exact this

/-- C8 counterexample: for the pool `[1]` with `bits_per_function = 4`, six
selected sub-hashes, `bits_to_cut = 0` and the 32-bit word used for index
codes (`L = 24`), `hash_repetitions` produces the code `0x111111`, whose bits
below `L` (the low `32 − 24 = 8` bits of a left-aligned reading) are not
zero: the concatenation sits in the low bits of the word, not the top ones. -/
theorem c8_code_not_left_aligned :
    hashRepetition [1] [0, 0, 0, 0, 0, 0] 4 0 32 = 0x111111 ∧
    ¬(hashRepetition [1] [0, 0, 0, 0, 0, 0] 4 0 32 % 2 ^ (32 - 24) = 0) := by
  decide

/-- C8 (amended): every code produced by `HashPool::hash_repetitions` is an
`L`-bit value held in the low bits of the word: when every pool sub-hash fits
in `bits_per_function` bits and the concatenation fits the word, the code
equals the most-significant-first concatenation of the selected sub-hashes
shifted right by the excess `bits_to_cut`, and it is below
`2 ^ bits_per_hasher` (so all word bits from `L` up are zero). -/
theorem c8_codes_fit_in_low_bits (pool idxs : List ℕ) (bpf btc bph w : ℕ)
    (hpool : ∀ x ∈ pool, x < 2 ^ bpf)
    (hw : bpf * idxs.length ≤ w)
    (hbtc : btc = bpf * idxs.length - bph)
    (hbph : bph ≤ bpf * idxs.length) :
    hashRepetition pool idxs bpf btc w = specMsbConcat pool idxs bpf >>> btc ∧
    hashRepetition pool idxs bpf btc w < 2 ^ bph := by
  have hgetD : ∀ i, pool.getD i 0 < 2 ^ bpf :=
    getD_lt_of_forall_mem (pow_pos (by norm_num) bpf) pool hpool
  have hmain := poolFold_eq_spec pool bpf w hgetD idxs 0 0 (by norm_num)
    (by simpa using hw)
  have heq : hashRepetition pool idxs bpf btc w = specMsbConcat pool idxs bpf >>> btc := by
    unfold hashRepetition specMsbConcat
    rw [hmain.1]
  refine ⟨heq, ?_⟩
  rw [heq]
  have hlt : specMsbConcat pool idxs bpf < 2 ^ (bpf * idxs.length) := by
    have := hmain.2
    simpa [specMsbConcat] using this
  rw [Nat.shiftRight_eq_div_pow]
  rw [Nat.div_lt_iff_lt_mul (pow_pos (by norm_num) btc)]
  calc specMsbConcat pool idxs bpf < 2 ^ (bpf * idxs.length) := hlt
    _ = 2 ^ bph * 2 ^ btc := by rw [← pow_add]; congr 1; omega

/-- C8 witness: for the pool `[3]` with six selected sub-hashes,
`bits_per_function = 4`, `bits_to_cut = 0`, `bits_per_hasher = 24` and the
32-bit word, the amended statement holds at a concrete input. -/
theorem c8_codes_fit_in_low_bits_witness :
    hashRepetition [3] [0, 0, 0, 0, 0, 0] 4 0 32 =
      specMsbConcat [3] [0, 0, 0, 0, 0, 0] 4 >>> 0 ∧
    hashRepetition [3] [0, 0, 0, 0, 0, 0] 4 0 32 < 2 ^ 24 :=
  c8_codes_fit_in_low_bits [3] [0, 0, 0, 0, 0, 0] 4 0 24 32
    (by decide) (by decide) (by decide) (by decide)

/-- C9 counterexample: `CPUFFINN_index_create` returns the null handle for
the tag "jaccard", although the claim requires a valid non-null handle for
it. -/
theorem c9_create_jaccard_returns_null :
    CPUFFINN_index_create "jaccard" 100 1024 = none := by decide

/-- C9 (amended): `CPUFFINN_index_create` returns a valid non-null handle
exactly for the tags "angular" (a cosine index) and "euclidean" (an L2
index), and the null handle for every other tag — including "jaccard". -/
theorem c9_create_supported_tags (dataset_type : String) (a : ℤ) (m : ℕ) :
    CPUFFINN_index_create "angular" a m = some IndexKind.cosine ∧
    CPUFFINN_index_create "euclidean" a m = some IndexKind.l2 ∧
    (CPUFFINN_index_create dataset_type a m = none ↔
      dataset_type ≠ "angular" ∧ dataset_type ≠ "euclidean") := by
  refine ⟨by simp [CPUFFINN_index_create], by simp [CPUFFINN_index_create], ?_⟩
  unfold CPUFFINN_index_create
  by_cases h1 : dataset_type = "angular" <;> by_cases h2 : dataset_type = "euclidean" <;>
    simp [h1, h2]

/-- C10 (failing-input evaluation): the deserializing `PrefixMap` constructor
applied to a stream with empty content arrays and pending-rebuild count
`rebuilding_len = 1` — the exact prefix `serialize` writes for a map with one
pending pair — performs an out-of-bounds access: it pushes into
`parallel_rebuilding_data[0]` while the member, never resized by this
constructor, is still the empty outer vector. -/
theorem c10_stream_ctor_out_of_bounds :
    prefixMapFromStream streamC10 = none := rfl

end Clann
